import Mathlib

/-!
Verification of the ring-reconstruction engine and ArcGIS-to-GeoJSON
converter of `pygeoutils` (file `pygeoutils/pygeoutils.py`).

Shallow embedding conventions:
* Coordinates are modelled as exact rationals (`ℚ`), one `Pt` per
  `[x, y]` coordinate list (a trailing z-value, which the ring pipeline
  never reads, is not carried).
* Python exceptions (`IndexError`, `TypeError`, ...) are modelled by
  `Option`: `none` means the call raises and produces no return value.
* The shapely predicates `LineString.intersects` and
  `LineString.contains(Point)` are external collaborators; they are
  abstracted as boolean-valued parameters `inter` and `cont`.
* Python lists used as stacks (`list.pop()` removes the last element)
  are modelled by recursing on the reversed list, so the head of the
  recursion argument is the next element popped.
-/

set_option maxHeartbeats 1600000

abbrev Pt := ℚ × ℚ

/-- A coordinate ring, as the source manipulates it: a plain list of points. -/
abbrev Ring' := List Pt

/-- `np.isclose` with the numpy defaults `rtol = 1e-5`, `atol = 1e-8`:
`|a - b| <= atol + rtol * |b|` (exact, since our scalars are rationals). -/
def isclose (a b : ℚ) : Bool :=
  |a - b| ≤ 1 / 100000000 + (1 / 100000) * |b|

/-- `np.all(np.isclose(p, q))` on two `[x, y]` coordinate lists. -/
def ptsClose (p q : Pt) : Bool :=
  isclose p.1 q.1 && isclose p.2 q.2

/-- Lines 223-224 of `_get_outer_rings`:
`if not np.all(np.isclose(ring[0], ring[-1])): ring.append(ring[0])`.
On the empty ring, `ring[0]` raises `IndexError` (modelled by `none`).
The returned ring is the in-place value of the caller's list after the
statement (the mutation footprint of the loop body). -/
def closeRing : Ring' → Option Ring'
  | [] => none
  | p :: t => some (if ptsClose p (t.getLastD p) then p :: t else (p :: t) ++ [p])

/-- One term of the shoelace-style sum of line 229:
`(pt2[0] - pt1[0]) * (pt2[1] + pt1[1])`. -/
def edge (p q : Pt) : ℚ := (q.1 - p.1) * (q.2 + p.2)

/-- Line 229: `sum((pt2[0]-pt1[0])*(pt2[1]+pt1[1]) for pt1, pt2 in
zip(ring[:-1], ring[1:]))`. -/
def shoelace : Ring' → ℚ
  | p :: q :: t => edge p q + shoelace (q :: t)
  | _ => 0

/-- `_get_outer_rings` (lines 218-237): close each ring, drop rings with
fewer than 4 points, classify by the sign of the shoelace sum; exterior
candidates are stored reversed as singleton groups, hole candidates are
stored reversed on the hole list.  Input order is preserved in both
outputs.  `none` models the `IndexError` raised on an empty ring. -/
def getOuterRings : List Ring' → Option (List (List Ring') × List Ring')
  | [] => some ([], [])
  | ring :: rest =>
    (closeRing ring).bind fun c =>
    (getOuterRings rest).bind fun p =>
    if c.length < 4 then some p
    else if 0 ≤ shoelace c then some ([c.reverse] :: p.1, p.2)
    else some (p.1, c.reverse :: p.2)

section HoleAssigner

-- `inter` models `l1.intersects(l2)` on the `LineString`s of two rings,
-- and `cont` models `l1.contains(Point(p))` for a ring's `LineString` and
-- a point: both are external shapely collaborators, abstracted as
-- parameters.
variable (inter : Ring' → Ring' → Bool) (cont : Ring' → Pt → Bool)

/-- `outer_rings[x][0]` — the exterior ring of group `x`. -/
def extAt (G : List (List Ring')) (x : Nat) : Ring' := (G.getD x []).headI

/-- The countdown scan `x = len(...) - 1; while x >= 0: ... x = x - 1`
shared by both hole loops: returns the first (largest) index below `n`
satisfying `p`, i.e. the index at which the loop breaks. -/
def scanDown (p : Nat → Bool) : Nat → Option Nat
  | 0 => none
  | n + 1 => if p n then some n else scanDown p n

/-- `outer_rings[x].append(hole)`. -/
def appendAt (G : List (List Ring')) (i : Nat) (h : Ring') : List (List Ring') :=
  G.set i (G.getD i [] ++ [h])

/-- The containment test of `_get_uncontained_holes` lines 258-260:
`not l1.intersects(l2) and l1.contains(Point(hole[0]))`. -/
def holeTest (ext hole : Ring') : Bool :=
  !inter ext hole && cont ext hole.headI

/-- The `while holes:` loop of `_get_uncontained_holes` (lines 247-270),
with the argument list already in pop order (head = next hole popped).
Returns the final groups (the source mutates `outer_rings` in place)
and the `uncontained_holes` list in its append order. -/
def uncontAux : List (List Ring') → List Ring' → List (List Ring') × List Ring'
  | G, [] => (G, [])
  | G, h :: rest =>
    match scanDown (fun x => holeTest inter cont (extAt G x) h) G.length with
    | some i => uncontAux (appendAt G i h) rest
    | none =>
      let r := uncontAux G rest
      (r.1, h :: r.2)

/-- `_get_uncontained_holes(outer_rings, holes)` (lines 240-271):
`holes.pop()` takes the last element first, hence the reversal. -/
def getUncontainedHoles (G : List (List Ring')) (holes : List Ring') :
    List (List Ring') × List Ring' :=
  uncontAux inter cont G holes.reverse

/-- The `while uncontained_holes:` fallback loop of `_rings2geojson`
(lines 191-210), argument in pop order: intersects-only match, and a
hole matching no group is promoted to a new singleton group (its ring
reversed again), which later iterations can scan. -/
def fbAux : List (List Ring') → List Ring' → List (List Ring')
  | G, [] => G
  | G, h :: rest =>
    match scanDown (fun x => inter (extAt G x) h) G.length with
    | some i => fbAux (appendAt G i h) rest
    | none => fbAux (G ++ [[h.reverse]]) rest

/-- The geometry dictionary `_rings2geojson` returns: either
`{"type": "Polygon", "coordinates": ...}` or
`{"type": "MultiPolygon", "coordinates": ...}`. -/
inductive RingsGeo where
  | polygon (coords : List Ring')
  | multiPolygon (coords : List (List Ring'))
  deriving DecidableEq

/-- The coordinate arrays of the assembled geometry, as a list of
outer-ring groups (a `Polygon` is the single group it carries). -/
def coordsOf : RingsGeo → List (List Ring')
  | .polygon c => [c]
  | .multiPolygon cs => cs

/-- `_rings2geojson(rings)` (lines 185-215): classify, run the
containment pass, run the intersects fallback pass (draining
`uncontained_holes` with `pop()`), then assemble. -/
def rings2geojson (rings : List Ring') : Option RingsGeo :=
  (getOuterRings rings).bind fun p =>
    let r1 := getUncontainedHoles inter cont p.1 p.2
    let g2 := fbAux inter r1.1 r1.2.reverse
    if g2.length = 1 then some (RingsGeo.polygon g2.headI)
    else some (RingsGeo.multiPolygon g2)

/-- The outer-ring groups as they stand when `_rings2geojson` reaches
its final `if` (line 212): the result of both hole-assignment passes. -/
def finalGroups (rings : List Ring') : Option (List (List Ring')) :=
  (getOuterRings rings).bind fun p =>
    let r1 := getUncontainedHoles inter cont p.1 p.2
    some (fbAux inter r1.1 r1.2.reverse)

/-- The declarative form of the reverse-order scan of the containment
pass: the group index a hole is assigned to is the first index, in
reverse creation order, whose exterior ring passes `holeTest`. -/
def assignIdx (exts : List Ring') (h : Ring') : Option Nat :=
  ((List.range exts.length).reverse).find?
    (fun i => holeTest inter cont (exts.getD i []) h)

end HoleAssigner

/-- Invariant of an outer-ring group list: every group is nonempty, its
head (the exterior ring) satisfies `Qe` and every later ring (an
attached hole) satisfies `Qh`. -/
def GroupInv (Qe Qh : Ring' → Prop) (G : List (List Ring')) : Prop :=
  ∀ g ∈ G, g ≠ [] ∧ Qe g.headI ∧ ∀ r ∈ g.tail, Qh r

/-- Sequence a fallible map over a list (`none` as soon as one element
fails); used to express the in-place mutation footprint of the ring
loop and the feature/ring decoding of the converter. -/
def mapOpt {α β : Type} (f : α → Option β) : List α → Option (List β)
  | [] => some []
  | a :: l =>
    (f a).bind fun b => (mapOpt f l).bind fun bs => some (b :: bs)

/-- The value of the caller's `rings` array after `_get_outer_rings`
has run (lines 222-224 mutate each ring in place by appending its first
point when the endpoints are not close); `none` when the call raises
before returning. -/
def ringsAfter (rings : List Ring') : Option (List Ring') :=
  mapOpt closeRing rings

-- Concrete instantiations of the abstract shapely predicates, used by
-- the witness theorems.
def interF : Ring' → Ring' → Bool := fun _ _ => false

def contT : Ring' → Pt → Bool := fun _ _ => true

def contF : Ring' → Pt → Bool := fun _ _ => false

/-- JSON values, the data the converter `arcgis2geojson.convert`
dispatches on.  An object's fields are an association list in insertion
order, mirroring a Python `dict`. -/
inductive Json where
  | null
  | bool (b : Bool)
  | num (q : ℚ)
  | str (s : String)
  | arr (xs : List Json)
  | obj (kvs : List (String × Json))
  deriving Inhabited

/-- A Python dictionary: string keys in insertion order, unique keys. -/
abbrev Dict := List (String × Json)

/-- `d[k]` / `k in d` on a Python dict (first matching key). -/
def getKey : Dict → String → Option Json
  | [], _ => none
  | (k2, v) :: t, k => if k2 = k then some v else getKey t k

/-- `d[k] = v` on a Python dict: overwrite in place if the key exists,
else append at the end. -/
def setKey : Dict → String → Json → Dict
  | [], k, v => [(k, v)]
  | (k2, v2) :: t, k, v =>
    if k2 = k then (k, v) :: t else (k2, v2) :: setKey t k v

/-- Python truthiness of a JSON value: `None`, `False`, `0`, `""`, `[]`
and `{}` are falsy. -/
def truthy : Json → Bool
  | Json.null => false
  | Json.bool b => b
  | Json.num q => if q = 0 then false else true
  | Json.str s => if s = "" then false else true
  | Json.arr xs => !xs.isEmpty
  | Json.obj kvs => !kvs.isEmpty

/-- `isinstance(v, numbers.Number)`: a Python `bool` is an `int`, hence
a `Number`. -/
def isNumJ : Json → Bool
  | Json.num _ => true
  | Json.bool _ => true
  | _ => false

/-- `isinstance(v, (numbers.Number, str))`. -/
def isNumOrStrJ : Json → Bool
  | Json.num _ => true
  | Json.bool _ => true
  | Json.str _ => true
  | _ => false

/-- Line 162: `keys = [id_attr, "OBJECTID", "FID"] if id_attr else
["OBJECTID", "FID"]` — `if id_attr` is Python truthiness, so both a
missing and an *empty-string* id attribute fall to the two-key list. -/
def idKeys (idAttr : Option String) : List String :=
  match idAttr with
  | some k => if k = "" then ["OBJECTID", "FID"] else [k, "OBJECTID", "FID"]
  | none => ["OBJECTID", "FID"]

/-- The `for key in keys` loop of lines 163-168: the first key present
in the attributes whose value is a number or a string wins; a present
key with a non-qualifying value does not break the loop. -/
def idScan (attrs : Dict) : List String → Option Json
  | [] => none
  | k :: ks =>
    match getKey attrs k with
    | some v => if isNumOrStrJ v then some v else idScan attrs ks
    | none => idScan attrs ks

/-- Lines 160-170 of `arcgis2geojson.convert`: the id value derived
from a mapping `attributes` (first component) and whether the
`warn("No valid id attribute found.")` call runs (second component).
Each subscript `attributes[key]` is guarded by `key in attributes`, so
for a mapping the `except KeyError` handler holding the warning is
unreachable: the translation reaches the warning on no input, and the
emitted-warning component is `false` on every path. -/
def idLookup (idAttr : Option String) (attrs : Dict) : Option Json × Bool :=
  (idScan attrs (idKeys idAttr), false)

/-- Lines 100-102, the `features` branch, with the recursive conversion
of each feature abstracted as `conv`: a truthy non-sequence value would
raise when iterated (`none`); a missing or falsy `features` leaves the
output dict empty. -/
def featuresStep (conv : Json → Option Dict) (kvs : Dict) : Option Dict :=
  match getKey kvs "features" with
  | some fv =>
    if truthy fv then
      match fv with
      | Json.arr fs =>
        (mapOpt conv fs).bind fun cs =>
          some (setKey (setKey [] "type" (Json.str "FeatureCollection"))
            "features" (Json.arr (cs.map Json.obj)))
      | _ => none
    else some []
  | none => some []

/-- Lines 104-113, the `x`/`y` Point branch (with optional numeric `z`
appended to the coordinates). -/
def pointStep (kvs g : Dict) : Dict :=
  match getKey kvs "x", getKey kvs "y" with
  | some xv, some yv =>
    if isNumJ xv && isNumJ yv then
      setKey (setKey g "type" (Json.str "Point")) "coordinates"
        (Json.arr ([xv, yv] ++ (match getKey kvs "z" with
          | some zv => if isNumJ zv then [zv] else []
          | none => [])))
    else g
  | _, _ => g

/-- Lines 115-117, the `points` branch: coordinates copied verbatim. -/
def pointsStep (kvs g : Dict) : Dict :=
  match getKey kvs "points" with
  | some pv => setKey (setKey g "type" (Json.str "MultiPoint")) "coordinates" pv
  | none => g

/-- Lines 119-125, the `paths` branch: one path gives a LineString with
that path's coordinates, any other count a MultiLineString; `len` and
subscripting on a non-sequence raise (`none`). -/
def pathsStep (kvs g : Dict) : Option Dict :=
  match getKey kvs "paths" with
  | some (Json.arr ps) =>
    if ps.length = 1 then
      some (setKey (setKey g "type" (Json.str "LineString")) "coordinates" ps.headI)
    else
      some (setKey (setKey g "type" (Json.str "MultiLineString")) "coordinates"
        (Json.arr ps))
  | some _ => none
  | none => some g

/-- One `[x, y]` coordinate array of a ring (any further entries, e.g.
a z-value, are ignored by the ring pipeline, which reads only indices 0
and 1). -/
def decodePt : Json → Option Pt
  | Json.arr (Json.num x :: Json.num y :: _) => some (x, y)
  | _ => none

def decodeRing : Json → Option Ring'
  | Json.arr ps => mapOpt decodePt ps
  | _ => none

def decodeRings : Json → Option (List Ring')
  | Json.arr rs => mapOpt decodeRing rs
  | _ => none

def encodePt (p : Pt) : Json := Json.arr [Json.num p.1, Json.num p.2]

def encodeRing (r : Ring') : Json := Json.arr (r.map encodePt)

/-- The dictionary `_rings2geojson` returns, as built on lines 212-215. -/
def encodeRingsGeo : RingsGeo → Dict
  | RingsGeo.polygon c =>
    setKey (setKey [] "type" (Json.str "Polygon")) "coordinates"
      (Json.arr (c.map encodeRing))
  | RingsGeo.multiPolygon cs =>
    setKey (setKey [] "type" (Json.str "MultiPolygon")) "coordinates"
      (Json.arr (cs.map (fun c => Json.arr (c.map encodeRing))))

/-- Lines 127-128: `geojson = _rings2geojson(arcgis["rings"])` —
note the wholesale *replacement* of the dict built so far. -/
def ringsStep (inter : Ring' → Ring' → Bool) (cont : Ring' → Pt → Bool)
    (kvs g : Dict) : Option Dict :=
  match getKey kvs "rings" with
  | some rv =>
    (decodeRings rv).bind fun rs =>
      (rings2geojson inter cont rs).map encodeRingsGeo
  | none => some g

/-- Lines 130-149, the envelope branch: all four bounds present and
numeric give a closed 5-point Polygon ring. -/
def envStep (kvs g : Dict) : Dict :=
  match getKey kvs "xmin", getKey kvs "ymin", getKey kvs "xmax", getKey kvs "ymax" with
  | some x0, some y0, some x1, some y1 =>
    if isNumJ x0 && isNumJ y0 && isNumJ x1 && isNumJ y1 then
      setKey (setKey g "type" (Json.str "Polygon")) "coordinates"
        (Json.arr [Json.arr [Json.arr [x1, y1], Json.arr [x0, y1],
          Json.arr [x0, y0], Json.arr [x1, y0], Json.arr [x1, y1]]])
    else g
  | _, _, _, _ => g

/-- Lines 152-156: `geojson["type"] = "Feature"` and the recursive
geometry conversion (null when the key is absent), with the recursion
abstracted as `conv`. -/
def geomStep (conv : Json → Option Dict) (kvs g : Dict) : Option Dict :=
  match getKey kvs "geometry" with
  | some gv =>
    (conv gv).bind fun r =>
      some (setKey (setKey g "type" (Json.str "Feature")) "geometry" (Json.obj r))
  | none => some (setKey (setKey g "type" (Json.str "Feature")) "geometry" Json.null)

/-- Lines 158-172: copy `attributes` into `properties` (null when
absent) and derive the id.  A non-mapping `attributes` value generally
raises on the membership or subscript tests and is modelled as an
error; string values, which Python's `in` treats as substring search,
are not modelled (no claim exercises them). -/
def attrStep (idAttr : Option String) (kvs g : Dict) : Option Dict :=
  match getKey kvs "attributes" with
  | some (Json.obj attrs) =>
    let gp := setKey g "properties" (Json.obj attrs)
    match (idLookup idAttr attrs).1 with
    | some v => some (setKey gp "id" v)
    | none => some gp
  | some _ => none
  | none => some (setKey g "properties" Json.null)

/-- Lines 151-172 as a whole: the Feature branch runs when `geometry`
or `attributes` is present. -/
def featurePart (conv : Json → Option Dict) (idAttr : Option String)
    (kvs g : Dict) : Option Dict :=
  if (getKey kvs "geometry").isSome || (getKey kvs "attributes").isSome then
    (geomStep conv kvs g).bind fun gb => attrStep idAttr kvs gb
  else some g

/-- Lines 174-175: a falsy resolved `geometry` is normalized to null. -/
def normStep (g : Dict) : Dict :=
  match getKey g "geometry" with
  | some gv => if truthy gv then g else setKey g "geometry" Json.null
  | none => g

/-- `arcgis2geojson.convert` (lines 96-177), fuel-indexed: the `Nat`
argument bounds the recursion depth (one unit per nested `convert`
call), so a run of the source that returns corresponds to this
function at every sufficiently large fuel, and `none` covers both a
raised exception and exhausted fuel.  A non-mapping argument raises on
the first membership test (modelled as `none`; string arguments, for
which `in` is substring search, are not modelled — no claim exercises
them).  The branches run in source order: features, point, points,
paths, rings (replacing the dict built so far), envelope, feature,
then the final geometry normalization. -/
def convertF (inter : Ring' → Ring' → Bool) (cont : Ring' → Pt → Bool)
    (idAttr : Option String) : Nat → Json → Option Dict
  | 0, _ => none
  | fuel + 1, Json.obj kvs =>
    (featuresStep (fun f => convertF inter cont idAttr fuel f) kvs).bind fun g1 =>
    (pathsStep kvs (pointsStep kvs (pointStep kvs g1))).bind fun g4 =>
    (ringsStep inter cont kvs g4).bind fun g5 =>
    (featurePart (fun f => convertF inter cont idAttr fuel f) idAttr kvs
        (envStep kvs g5)).bind fun g7 =>
    some (normStep g7)
  | _ + 1, _ => none

lemma scanDown_some {p : Nat → Bool} :
    ∀ {n i : Nat}, scanDown p n = some i → i < n ∧ p i = true := by
  intro n
  induction n with
  | zero => intro i h; simp [scanDown] at h
  | succ n ih =>
    intro i h
    rw [scanDown] at h
    by_cases hp : p n
    · rw [if_pos hp] at h
      cases h
      exact ⟨Nat.lt_succ_self n, hp⟩
    · rw [if_neg hp] at h
      obtain ⟨h1, h2⟩ := ih h
      exact ⟨Nat.lt_succ_of_lt h1, h2⟩

lemma scanDown_none {p : Nat → Bool} :
    ∀ {n : Nat}, scanDown p n = none ↔ ∀ i < n, p i = false := by
  intro n
  induction n with
  | zero => simp [scanDown]
  | succ n ih =>
    rw [scanDown]
    by_cases hp : p n
    · simp only [if_pos hp]
      constructor
      · intro h; cases h
      · intro h
        have := h n (Nat.lt_succ_self n)
        rw [hp] at this
        cases this
    · simp only [if_neg hp, ih]
      constructor
      · intro h i hi
        rcases Nat.lt_succ_iff_lt_or_eq.mp hi with h1 | h1
        · exact h i h1
        · subst h1; exact Bool.eq_false_iff.mpr hp
      · intro h i hi
        exact h i (Nat.lt_succ_of_lt hi)

lemma scanDown_eq_find (p : Nat → Bool) :
    ∀ n, scanDown p n = ((List.range n).reverse).find? p := by
  intro n
  induction n with
  | zero => rfl
  | succ n ih =>
    rw [scanDown, List.range_succ, List.reverse_append, List.reverse_singleton,
      List.singleton_append]
    by_cases hp : p n
    · rw [if_pos hp, List.find?_cons_of_pos _ hp]
    · rw [if_neg hp, List.find?_cons_of_neg _ (by simp [hp]), ih]

lemma scanDown_congr {p q : Nat → Bool} :
    ∀ {n}, (∀ i < n, p i = q i) → scanDown p n = scanDown q n := by
  intro n
  induction n with
  | zero => intro _; rfl
  | succ n ih =>
    intro h
    rw [scanDown, scanDown, h n (Nat.lt_succ_self n),
      ih (fun i hi => h i (Nat.lt_succ_of_lt hi))]

lemma appendAt_length (G : List (List Ring')) (i : Nat) (h : Ring') :
    (appendAt G i h).length = G.length := by
  simp [appendAt]

lemma headI_append_left {g : List Ring'} (hg : g ≠ []) (x : Ring') :
    (g ++ [x]).headI = g.headI := by
  cases g with
  | nil => exact absurd rfl hg
  | cons a t => rfl

lemma tail_append_left {g : List Ring'} (hg : g ≠ []) (x : Ring') :
    (g ++ [x]).tail = g.tail ++ [x] := by
  cases g with
  | nil => exact absurd rfl hg
  | cons a t => rfl

lemma set_get_self {α : Type} :
    ∀ (l : List α) (i : Nat) (hi : i < l.length), l.set i (l.get ⟨i, hi⟩) = l := by
  intro l
  induction l with
  | nil => intro i hi; cases hi
  | cons a t ih =>
    intro i hi
    cases i with
    | zero => rfl
    | succ j => simp only [List.set, List.get]; rw [ih]

lemma get?_set_self {α : Type} (a : α) :
    ∀ (l : List α) (i : Nat), i < l.length → (l.set i a).get? i = some a := by
  intro l
  induction l with
  | nil => intro i hi; cases hi
  | cons b t ih =>
    intro i hi
    cases i with
    | zero => rfl
    | succ j => exact ih j (Nat.lt_of_succ_lt_succ hi)

lemma get?_set_ne {α : Type} (a : α) :
    ∀ (l : List α) {i j : Nat}, i ≠ j → (l.set i a).get? j = l.get? j := by
  intro l
  induction l with
  | nil => intro i j _; simp
  | cons b t ih =>
    intro i j hij
    cases i with
    | zero =>
      cases j with
      | zero => exact absurd rfl hij
      | succ k => rfl
    | succ i0 =>
      cases j with
      | zero => rfl
      | succ k => exact ih (fun he => hij (by rw [he]))

lemma uncontAux_fst_length (inter : Ring' → Ring' → Bool) (cont : Ring' → Pt → Bool) :
    ∀ (ps : List Ring') (G : List (List Ring')),
      (uncontAux inter cont G ps).1.length = G.length := by
  intro ps
  induction ps with
  | nil => intro G; rfl
  | cons h rest ih =>
    intro G
    rw [uncontAux]
    cases hs : scanDown (fun x => holeTest inter cont (extAt G x) h) G.length with
    | some i => simp only [ih, appendAt_length]
    | none => exact ih G

lemma uncontAux_snd_length (inter : Ring' → Ring' → Bool) (cont : Ring' → Pt → Bool) :
    ∀ (ps : List Ring') (G : List (List Ring')),
      (uncontAux inter cont G ps).2.length ≤ ps.length := by
  intro ps
  induction ps with
  | nil => intro G; exact Nat.le_refl 0
  | cons h rest ih =>
    intro G
    rw [uncontAux]
    cases hs : scanDown (fun x => holeTest inter cont (extAt G x) h) G.length with
    | some i => exact Nat.le_succ_of_le (ih (appendAt G i h))
    | none => exact Nat.succ_le_succ (ih G)

lemma fbAux_length_le (inter : Ring' → Ring' → Bool) :
    ∀ (ps : List Ring') (G : List (List Ring')),
      (fbAux inter G ps).length ≤ G.length + ps.length := by
  intro ps
  induction ps with
  | nil => intro G; exact Nat.le_refl _
  | cons h rest ih =>
    intro G
    rw [fbAux]
    cases hs : scanDown (fun x => inter (extAt G x) h) G.length with
    | some i =>
      have := ih (appendAt G i h)
      rw [appendAt_length] at this
      exact Nat.le_succ_of_le this
    | none =>
      show (fbAux inter (G ++ [[h.reverse]]) rest).length ≤ G.length + (h :: rest).length
      have h1 : (G ++ [[h.reverse]]).length = G.length + 1 := by simp
      have := ih (G ++ [[h.reverse]])
      rw [h1] at this
      simp only [List.length_cons]
      omega

lemma fbAux_length_mono (inter : Ring' → Ring' → Bool) :
    ∀ (ps : List Ring') (G : List (List Ring')),
      G.length ≤ (fbAux inter G ps).length := by
  intro ps
  induction ps with
  | nil => intro G; exact Nat.le_refl _
  | cons h rest ih =>
    intro G
    rw [fbAux]
    cases hs : scanDown (fun x => inter (extAt G x) h) G.length with
    | some i =>
      have := ih (appendAt G i h)
      rw [appendAt_length] at this
      exact this
    | none =>
      show G.length ≤ (fbAux inter (G ++ [[h.reverse]]) rest).length
      have h1 : (G ++ [[h.reverse]]).length = G.length + 1 := by simp
      have := ih (G ++ [[h.reverse]])
      rw [h1] at this
      exact le_trans (Nat.le_succ _) this

lemma extAt_eq_map_getD (G : List (List Ring')) (i : Nat) :
    extAt G i = (G.map (fun g => g.headI)).getD i [] := by
  simp only [extAt, List.getD_eq_get?, List.get?_map]
  cases G.get? i <;> rfl

lemma scanDown_eq_assign (inter : Ring' → Ring' → Bool) (cont : Ring' → Pt → Bool)
    (G : List (List Ring')) (h : Ring') :
    scanDown (fun x => holeTest inter cont (extAt G x) h) G.length
      = assignIdx inter cont (G.map (fun g => g.headI)) h := by
  rw [assignIdx]
  have hl : (G.map (fun g => g.headI)).length = G.length := List.length_map _ _
  rw [hl, ← scanDown_eq_find]
  exact scanDown_congr (fun i _ => by rw [extAt_eq_map_getD G i])

lemma getD_eq_get_of_lt (G : List (List Ring')) {i : Nat} (hi : i < G.length) :
    G.getD i [] = G.get ⟨i, hi⟩ := by
  rw [List.getD_eq_get?, List.get?_eq_get hi]
  rfl

lemma appendAt_map_headI (G : List (List Ring')) (h0 : Ring') {i : Nat}
    (hi : i < G.length) (hne : ∀ g ∈ G, g ≠ []) :
    (appendAt G i h0).map (fun g => g.headI) = G.map (fun g => g.headI) := by
  rw [appendAt, getD_eq_get_of_lt G hi, List.map_set]
  have hne' : G.get ⟨i, hi⟩ ≠ [] := hne _ (G.get_mem i hi)
  rw [headI_append_left hne']
  have hmap : (G.get ⟨i, hi⟩).headI
      = (G.map (fun g => g.headI)).get ⟨i, by simpa using hi⟩ := by
    simp [List.get_map]
  rw [hmap, set_get_self]

lemma appendAt_ne_nil {G : List (List Ring')} (hne : ∀ g ∈ G, g ≠ [])
    (i : Nat) (h0 : Ring') : ∀ g ∈ appendAt G i h0, g ≠ [] := by
  intro g hg
  rcases List.mem_or_eq_of_mem_set hg with h1 | h1
  · exact hne g h1
  · subst h1; simp

/-- Declarative characterization of the containment pass: with the
processing list `ps` already in pop order, each processed hole goes to
the group at index `assignIdx` (the largest index whose exterior passes
the not-intersects-and-contains test), appended in processing order,
and the holes with no such index form the uncontained list in
processing order.  The exterior rings never change during the pass. -/
lemma uncontAux_char (inter : Ring' → Ring' → Bool) (cont : Ring' → Pt → Bool) :
    ∀ (ps : List Ring') (G : List (List Ring')), (∀ g ∈ G, g ≠ []) →
      (∀ j : Nat, (uncontAux inter cont G ps).1.get? j
          = (G.get? j).map (fun g => g ++ ps.filter
              (fun h => assignIdx inter cont (G.map (fun g => g.headI)) h = some j)))
      ∧ (uncontAux inter cont G ps).2
          = ps.filter
              (fun h => assignIdx inter cont (G.map (fun g => g.headI)) h = none) := by
  intro ps
  induction ps with
  | nil =>
    intro G hne
    refine ⟨fun j => ?_, rfl⟩
    show G.get? j = (G.get? j).map fun g => g ++ List.filter _ []
    cases G.get? j <;> simp
  | cons h rest ih =>
    intro G hne
    rw [uncontAux]
    cases hs : scanDown (fun x => holeTest inter cont (extAt G x) h) G.length with
    | some i =>
      obtain ⟨hlt, _⟩ := scanDown_some hs
      have hassign : assignIdx inter cont (G.map (fun g => g.headI)) h = some i := by
        rw [← scanDown_eq_assign]; exact hs
      have hne' := appendAt_ne_nil hne i h
      obtain ⟨ih1, ih2⟩ := ih (appendAt G i h) hne'
      have hmap := appendAt_map_headI G h hlt hne
      constructor
      · intro j
        show (uncontAux inter cont (appendAt G i h) rest).1.get? j = _
        rw [ih1 j, hmap]
        by_cases hij : i = j
        · subst hij
          rw [appendAt, get?_set_self _ _ _ hlt, getD_eq_get_of_lt G hlt,
            List.get?_eq_get hlt]
          simp only [Option.map_some']
          congr 1
          rw [List.filter_cons, if_pos (by simp [hassign]), List.append_assoc]
          rfl
        · rw [appendAt, get?_set_ne _ _ hij]
          have hfilter : rest.filter
                (fun h' => assignIdx inter cont (G.map (fun g => g.headI)) h' = some j)
              = (h :: rest).filter
                (fun h' => assignIdx inter cont (G.map (fun g => g.headI)) h' = some j) := by
            rw [List.filter_cons, if_neg (by simp [hassign, hij])]
          rw [hfilter]
      · show (uncontAux inter cont (appendAt G i h) rest).2 = _
        rw [ih2, hmap, List.filter_cons, if_neg (by simp [hassign])]
    | none =>
      have hassign : assignIdx inter cont (G.map (fun g => g.headI)) h = none := by
        rw [← scanDown_eq_assign]; exact hs
      obtain ⟨ih1, ih2⟩ := ih G hne
      constructor
      · intro j
        show (uncontAux inter cont G rest).1.get? j = _
        rw [ih1 j]
        have hfilter : rest.filter
              (fun h' => assignIdx inter cont (G.map (fun g => g.headI)) h' = some j)
            = (h :: rest).filter
              (fun h' => assignIdx inter cont (G.map (fun g => g.headI)) h' = some j) := by
          rw [List.filter_cons, if_neg (by simp [hassign])]
        rw [hfilter]
      · show h :: (uncontAux inter cont G rest).2 = _
        rw [ih2, List.filter_cons, if_pos (by simp [hassign])]

lemma groupInv_appendAt {Qe Qh : Ring' → Prop} {G : List (List Ring')}
    (hG : GroupInv Qe Qh G) {i : Nat} (hi : i < G.length) {h : Ring'} (hh : Qh h) :
    GroupInv Qe Qh (appendAt G i h) := by
  intro g hg
  rcases List.mem_or_eq_of_mem_set hg with h1 | h1
  · exact hG g h1
  · subst h1
    have hmem : G.getD i [] ∈ G := by
      rw [getD_eq_get_of_lt G hi]; exact G.get_mem i hi
    obtain ⟨hne, hQe, hQh⟩ := hG _ hmem
    refine ⟨by simp, ?_, ?_⟩
    · rw [headI_append_left hne]; exact hQe
    · rw [tail_append_left hne]
      intro r hr
      rcases List.mem_append.mp hr with h2 | h2
      · exact hQh r h2
      · rw [List.mem_singleton] at h2; subst h2; exact hh

lemma uncontAux_inv {Qe Qh : Ring' → Prop}
    (inter : Ring' → Ring' → Bool) (cont : Ring' → Pt → Bool) :
    ∀ (ps : List Ring') (G : List (List Ring')),
      GroupInv Qe Qh G → (∀ h ∈ ps, Qh h) →
      GroupInv Qe Qh (uncontAux inter cont G ps).1
      ∧ ∀ h ∈ (uncontAux inter cont G ps).2, Qh h := by
  intro ps
  induction ps with
  | nil =>
    intro G hG _
    exact ⟨hG, fun h hh => absurd hh (List.not_mem_nil h)⟩
  | cons h rest ih =>
    intro G hG hps
    rw [uncontAux]
    cases hs : scanDown (fun x => holeTest inter cont (extAt G x) h) G.length with
    | some i =>
      obtain ⟨hlt, _⟩ := scanDown_some hs
      exact ih (appendAt G i h)
        (groupInv_appendAt hG hlt (hps h (List.mem_cons_self h rest)))
        (fun h' hh' => hps h' (List.mem_cons_of_mem h hh'))
    | none =>
      obtain ⟨i1, i2⟩ := ih G hG (fun h' hh' => hps h' (List.mem_cons_of_mem h hh'))
      refine ⟨i1, ?_⟩
      intro h' hh'
      have hh2 : h' ∈ h :: (uncontAux inter cont G rest).2 := hh'
      rcases List.mem_cons.mp hh2 with h3 | h3
      · subst h3; exact hps h' (List.mem_cons_self h' rest)
      · exact i2 h' h3

lemma fbAux_inv {Qe Qh : Ring' → Prop} (inter : Ring' → Ring' → Bool)
    (hflip : ∀ r, Qh r → Qe r.reverse) :
    ∀ (ps : List Ring') (G : List (List Ring')),
      GroupInv Qe Qh G → (∀ h ∈ ps, Qh h) →
      GroupInv Qe Qh (fbAux inter G ps) := by
  intro ps
  induction ps with
  | nil => intro G hG _; exact hG
  | cons h rest ih =>
    intro G hG hps
    rw [fbAux]
    cases hs : scanDown (fun x => inter (extAt G x) h) G.length with
    | some i =>
      obtain ⟨hlt, _⟩ := scanDown_some hs
      exact ih (appendAt G i h)
        (groupInv_appendAt hG hlt (hps h (List.mem_cons_self h rest)))
        (fun h' hh' => hps h' (List.mem_cons_of_mem h hh'))
    | none =>
      refine ih (G ++ [[h.reverse]]) ?_
        (fun h' hh' => hps h' (List.mem_cons_of_mem h hh'))
      intro g hg
      rcases List.mem_append.mp hg with h1 | h1
      · exact hG g h1
      · rw [List.mem_singleton] at h1
        subst h1
        refine ⟨by simp, ?_, ?_⟩
        · exact hflip h (hps h (List.mem_cons_self h rest))
        · intro r hr; cases hr

/-- What the classifier emits: each group is a singleton holding the
reversal of a closed input ring with nonnegative shoelace total, each
hole is the reversal of a closed input ring with negative total, and in
both cases the closed ring has at least 4 points. -/
lemma getOuterRings_spec :
    ∀ (rings : List Ring') (os : List (List Ring')) (hs : List Ring'),
      getOuterRings rings = some (os, hs) →
      (∀ g ∈ os, ∃ raw ∈ rings, ∃ c, closeRing raw = some c ∧ 4 ≤ c.length
          ∧ 0 ≤ shoelace c ∧ g = [c.reverse])
      ∧ (∀ r ∈ hs, ∃ raw ∈ rings, ∃ c, closeRing raw = some c ∧ 4 ≤ c.length
          ∧ shoelace c < 0 ∧ r = c.reverse) := by
  intro rings
  induction rings with
  | nil =>
    intro os hs h
    rw [getOuterRings] at h
    simp only [Option.some.injEq, Prod.mk.injEq] at h
    obtain ⟨h1, h2⟩ := h
    subst h1; subst h2
    exact ⟨fun g hg => absurd hg (List.not_mem_nil g),
      fun r hr => absurd hr (List.not_mem_nil r)⟩
  | cons ring rest ih =>
    intro os hs h
    rw [getOuterRings] at h
    cases hc : closeRing ring with
    | none => rw [hc, Option.none_bind] at h; cases h
    | some c =>
      rw [hc, Option.some_bind] at h
      cases hr : getOuterRings rest with
      | none => rw [hr, Option.none_bind] at h; cases h
      | some p =>
        obtain ⟨os0, hs0⟩ := p
        rw [hr, Option.some_bind] at h
        dsimp only at h
        obtain ⟨s1, s2⟩ := ih os0 hs0 hr
        have weaken1 : ∀ g ∈ os0, ∃ raw ∈ ring :: rest, ∃ c2,
            closeRing raw = some c2 ∧ 4 ≤ c2.length ∧ 0 ≤ shoelace c2
            ∧ g = [c2.reverse] := by
          intro g hg
          obtain ⟨raw, hraw, c2, h1, h2, h3, h4⟩ := s1 g hg
          exact ⟨raw, List.mem_cons_of_mem ring hraw, c2, h1, h2, h3, h4⟩
        have weaken2 : ∀ r ∈ hs0, ∃ raw ∈ ring :: rest, ∃ c2,
            closeRing raw = some c2 ∧ 4 ≤ c2.length ∧ shoelace c2 < 0
            ∧ r = c2.reverse := by
          intro r hr2
          obtain ⟨raw, hraw, c2, h1, h2, h3, h4⟩ := s2 r hr2
          exact ⟨raw, List.mem_cons_of_mem ring hraw, c2, h1, h2, h3, h4⟩
        by_cases h4 : c.length < 4
        · rw [if_pos h4] at h
          simp only [Option.some.injEq, Prod.mk.injEq] at h
          obtain ⟨h1, h2⟩ := h
          subst h1; subst h2
          exact ⟨weaken1, weaken2⟩
        · rw [if_neg h4] at h
          by_cases hsh : 0 ≤ shoelace c
          · rw [if_pos hsh] at h
            simp only [Option.some.injEq, Prod.mk.injEq] at h
            obtain ⟨h1, h2⟩ := h
            subst h1; subst h2
            refine ⟨?_, weaken2⟩
            intro g hg
            rcases List.mem_cons.mp hg with h5 | h5
            · subst h5
              exact ⟨ring, List.mem_cons_self ring rest, c, hc, by omega, hsh, rfl⟩
            · exact weaken1 g h5
          · rw [if_neg hsh] at h
            simp only [Option.some.injEq, Prod.mk.injEq] at h
            obtain ⟨h1, h2⟩ := h
            subst h1; subst h2
            refine ⟨weaken1, ?_⟩
            intro r hr2
            rcases List.mem_cons.mp hr2 with h5 | h5
            · subst h5
              exact ⟨ring, List.mem_cons_self ring rest, c, hc, by omega,
                lt_of_not_le hsh, rfl⟩
            · exact weaken2 r h5

/-- Dropping a degenerate ring (fewer than 4 points once closed) from
anywhere in the input leaves the classifier output unchanged. -/
lemma getOuterRings_drop (pre post : List Ring') (r c : Ring')
    (hc : closeRing r = some c) (hlen : c.length < 4) :
    getOuterRings (pre ++ r :: post) = getOuterRings (pre ++ post) := by
  induction pre with
  | nil =>
    show getOuterRings (r :: post) = getOuterRings post
    rw [getOuterRings, hc, Option.some_bind]
    cases hr : getOuterRings post with
    | none => rfl
    | some p =>
      rw [Option.some_bind, if_pos hlen]
  | cons a pre' ih =>
    show getOuterRings (a :: (pre' ++ r :: post)) = getOuterRings (a :: (pre' ++ post))
    simp only [getOuterRings, ih]

/-- If no existing exterior intersects the hole, the fallback scan
finds nothing. -/
lemma scanDown_inter_none (inter : Ring' → Ring' → Bool)
    (G : List (List Ring')) (h : Ring')
    (horph : ∀ g ∈ G, inter g.headI h = false) :
    scanDown (fun x => inter (extAt G x) h) G.length = none := by
  rw [scanDown_none]
  intro i hi
  show inter (extAt G i) h = false
  rw [extAt, getD_eq_get_of_lt G hi]
  exact horph _ (G.get_mem i hi)

lemma ringsAfter_closed (rings : List Ring')
    (h : ∀ r ∈ rings, closeRing r = some r) :
    ringsAfter rings = some rings := by
  induction rings with
  | nil => rfl
  | cons r rest ih =>
    have ih2 := ih (fun r' hr' => h r' (List.mem_cons_of_mem r hr'))
    rw [ringsAfter] at ih2
    show mapOpt closeRing (r :: rest) = some (r :: rest)
    rw [mapOpt, h r (List.mem_cons_self r rest), Option.some_bind, ih2,
      Option.some_bind]

lemma edge_comm (p q : Pt) : edge q p = - edge p q := by
  unfold edge; ring

lemma getLast?_cons_eq {α : Type} [Inhabited α] (c : α) (l : List α) :
    (c :: l).getLast? = some (l.getLastD c) := by
  induction l generalizing c with
  | nil => rfl
  | cons d t ih => rw [List.getLast?_cons_cons, ih, List.getLastD_cons]

lemma shoelace_snoc (l : Ring') (a x : Pt) :
    shoelace ((a :: l) ++ [x]) = shoelace (a :: l) + edge (l.getLastD a) x := by
  induction l generalizing a with
  | nil => simp [shoelace, List.getLastD]
  | cons b t ih =>
    have h1 : ((a :: b :: t) ++ [x]) = a :: ((b :: t) ++ [x]) := rfl
    rw [h1]
    show edge a b + shoelace ((b :: t) ++ [x]) = _
    rw [ih b, List.getLastD_cons]
    show _ = edge a b + shoelace (b :: t) + edge (t.getLastD b) x
    ring

lemma shoelace_reverse (r : Ring') : shoelace r.reverse = - shoelace r := by
  induction r with
  | nil => simp [shoelace]
  | cons a t ih =>
    cases t with
    | nil => simp [shoelace]
    | cons b t' =>
      obtain ⟨c, l, hcl⟩ :=
        List.exists_cons_of_ne_nil (l := (b :: t').reverse) (by simp)
      have hlast : l.getLastD c = b := by
        have h2 : (c :: l).getLast? = some b := by
          rw [← hcl, List.getLast?_reverse]; rfl
        rw [getLast?_cons_eq] at h2
        exact Option.some_injective _ h2
      have h3 : (a :: b :: t').reverse = (c :: l) ++ [a] := by
        rw [List.reverse_cons, hcl]
      rw [h3, shoelace_snoc, hlast, ← hcl, ih]
      show -shoelace (b :: t') + edge b a = -(edge a b + shoelace (b :: t'))
      rw [edge_comm]
      ring

lemma rings2geojson_eq (inter : Ring' → Ring' → Bool) (cont : Ring' → Pt → Bool)
    (rings : List Ring') (os : List (List Ring')) (hs : List Ring')
    (hr : getOuterRings rings = some (os, hs)) :
    rings2geojson inter cont rings =
      (if (fbAux inter (getUncontainedHoles inter cont os hs).1
            (getUncontainedHoles inter cont os hs).2.reverse).length = 1
       then some (RingsGeo.polygon (fbAux inter (getUncontainedHoles inter cont os hs).1
            (getUncontainedHoles inter cont os hs).2.reverse).headI)
       else some (RingsGeo.multiPolygon (fbAux inter (getUncontainedHoles inter cont os hs).1
            (getUncontainedHoles inter cont os hs).2.reverse))) := by
  rw [rings2geojson, hr, Option.some_bind]

lemma headI_mem_self {α : Type} [Inhabited α] {l : List α} (h : l ≠ []) :
    l.headI ∈ l := by
  cases l with
  | nil => exact absurd rfl h
  | cons a t => exact List.mem_cons_self _ _

lemma mem_headI_or_tail {g : List Ring'} {r : Ring'} (hne : g ≠ []) (hr : r ∈ g) :
    r = g.headI ∨ r ∈ g.tail := by
  cases g with
  | nil => exact absurd rfl hne
  | cons a t =>
    rcases List.mem_cons.mp hr with h | h
    · left; exact h
    · right; exact h


/-- Claim C1: for every rings input on which the conversion returns,
every exterior ring in the output (the head of each outer-ring group)
has shoelace sum `Σ (x₂−x₁)(y₂+y₁) ≤ 0`, every hole ring (any later
ring of a group) has shoelace sum `≥ 0`, and every output ring is
exactly one reversal away from its classification-stage form: it is the
reversal of a closed input ring (the classifier's single flip), or —
for a promoted orphan, flipped once more from its hole form — a closed
input ring itself. -/
theorem ring_winding_invariant (inter : Ring' → Ring' → Bool) (cont : Ring' → Pt → Bool)
    (rings : List Ring') (out : RingsGeo)
    (h : rings2geojson inter cont rings = some out) :
    ∀ g ∈ coordsOf out, g ≠ [] ∧ shoelace g.headI ≤ 0
      ∧ (∀ r ∈ g.tail, 0 ≤ shoelace r)
      ∧ ∀ r ∈ g, ∃ raw ∈ rings, ∃ c, closeRing raw = some c
          ∧ (r = c.reverse ∨ r = c) := by
  cases hr : getOuterRings rings with
  | none => rw [rings2geojson, hr, Option.none_bind] at h; cases h
  | some p =>
    obtain ⟨os, hs⟩ := p
    rw [rings2geojson_eq inter cont rings os hs hr] at h
    obtain ⟨hos, hhs⟩ := getOuterRings_spec rings os hs hr
    have hGinv : GroupInv
        (fun r => shoelace r ≤ 0 ∧ ∃ raw ∈ rings, ∃ c, closeRing raw = some c
          ∧ (r = c.reverse ∨ r = c))
        (fun r => 0 ≤ shoelace r ∧ ∃ raw ∈ rings, ∃ c, closeRing raw = some c
          ∧ (r = c.reverse ∨ r = c)) os := by
      intro g hg
      obtain ⟨raw, hraw, c, hcr, _, hsh, hgeq⟩ := hos g hg
      subst hgeq
      refine ⟨by simp, ⟨?_, raw, hraw, c, hcr, Or.inl rfl⟩, ?_⟩
      · show shoelace c.reverse ≤ 0
        rw [shoelace_reverse]; linarith
      · intro r hrr
        exact absurd hrr (List.not_mem_nil r)
    have hHinv : ∀ h' ∈ hs, 0 ≤ shoelace h'
        ∧ ∃ raw ∈ rings, ∃ c, closeRing raw = some c
          ∧ (h' = c.reverse ∨ h' = c) := by
      intro h' hh'
      obtain ⟨raw, hraw, c, hcr, _, hsh, heq⟩ := hhs h' hh'
      subst heq
      exact ⟨by rw [shoelace_reverse]; linarith, raw, hraw, c, hcr, Or.inl rfl⟩
    obtain ⟨hG1, hU1⟩ := uncontAux_inv inter cont hs.reverse os hGinv
      (fun h' hh' => hHinv h' (List.mem_reverse.mp hh'))
    have hflip : ∀ r : Ring',
        (0 ≤ shoelace r ∧ ∃ raw ∈ rings, ∃ c, closeRing raw = some c
          ∧ (r = c.reverse ∨ r = c)) →
        (shoelace r.reverse ≤ 0 ∧ ∃ raw ∈ rings, ∃ c, closeRing raw = some c
          ∧ (r.reverse = c.reverse ∨ r.reverse = c)) := by
      rintro r ⟨h1, raw, hraw, c, hcr, hor⟩
      refine ⟨by rw [shoelace_reverse]; linarith, raw, hraw, c, hcr, ?_⟩
      rcases hor with h2 | h2
      · right; rw [h2, List.reverse_reverse]
      · left; rw [h2]
    have hG2 := fbAux_inv inter hflip
      (getUncontainedHoles inter cont os hs).2.reverse
      (getUncontainedHoles inter cont os hs).1
      hG1 (fun h' hh' => hU1 h' (List.mem_reverse.mp hh'))
    set G2 := fbAux inter (getUncontainedHoles inter cont os hs).1
      (getUncontainedHoles inter cont os hs).2.reverse with hG2def
    by_cases hlen : G2.length = 1
    · rw [if_pos hlen] at h
      injection h with h2
      subst h2
      intro g hg
      have hg2 : g = G2.headI := by simpa [coordsOf] using hg
      subst hg2
      have hne2 : G2 ≠ [] := by
        intro hnil; rw [hnil] at hlen; simp at hlen
      have hmem : G2.headI ∈ G2 := headI_mem_self hne2
      obtain ⟨hne3, hQe, hQh⟩ := hG2 _ hmem
      refine ⟨hne3, hQe.1, fun r hrr => (hQh r hrr).1, ?_⟩
      intro r hrg
      rcases mem_headI_or_tail hne3 hrg with h4 | h4
      · rw [h4]; exact hQe.2
      · exact (hQh r h4).2
    · rw [if_neg hlen] at h
      injection h with h2
      subst h2
      intro g hg
      have hgm : g ∈ G2 := by simpa [coordsOf] using hg
      obtain ⟨hne3, hQe, hQh⟩ := hG2 g hgm
      refine ⟨hne3, hQe.1, fun r hrr => (hQh r hrr).1, ?_⟩
      intro r hrg
      rcases mem_headI_or_tail hne3 hrg with h4 | h4
      · rw [h4]; exact hQe.2
      · exact (hQh r h4).2

/-- Witness for C1 at a concrete input: one unclosed clockwise square,
auto-closed and emitted as the single (reversed, counterclockwise)
exterior ring of a Polygon. -/
theorem ring_winding_invariant_witness :
    (rings2geojson interF contF [[((0:ℚ),(0:ℚ)),(0,4),(4,4),(4,0)]]
      = some (RingsGeo.polygon [[((0:ℚ),(0:ℚ)),(4,0),(4,4),(0,4),(0,0)]]))
    ∧ ∀ g ∈ coordsOf (RingsGeo.polygon [[((0:ℚ),(0:ℚ)),(4,0),(4,4),(0,4),(0,0)]]),
        g ≠ [] ∧ shoelace g.headI ≤ 0
        ∧ (∀ r ∈ g.tail, 0 ≤ shoelace r)
        ∧ ∀ r ∈ g, ∃ raw ∈ [[((0:ℚ),(0:ℚ)),(0,4),(4,4),(4,0)]],
            ∃ c, closeRing raw = some c ∧ (r = c.reverse ∨ r = c) :=
  ⟨by with_unfolding_all rfl,
   ring_winding_invariant interF contF [[((0:ℚ),(0:ℚ)),(0,4),(4,4),(4,0)]]
     (RingsGeo.polygon [[((0:ℚ),(0:ℚ)),(4,0),(4,4),(0,4),(0,0)]])
     (by with_unfolding_all rfl)⟩

/-- Claim C2: the containment pass drains holes last-first (LIFO), scans
the groups from the most recently created one down to the first, appends
the hole to the first group whose exterior both does not intersect it
and contains its first vertex (the largest such index, `assignIdx`), and
defers it to the uncontained list otherwise; group count and exterior
rings never change during the pass. -/
theorem containment_pass_order (inter : Ring' → Ring' → Bool) (cont : Ring' → Pt → Bool)
    (G : List (List Ring')) (holes : List Ring')
    (hne : ∀ g ∈ G, g ≠ []) :
    ((getUncontainedHoles inter cont G holes).1.length = G.length)
    ∧ (∀ j : Nat, (getUncontainedHoles inter cont G holes).1.get? j
        = (G.get? j).map (fun g => g ++ holes.reverse.filter
            (fun h => assignIdx inter cont (G.map (fun g => g.headI)) h = some j)))
    ∧ ((getUncontainedHoles inter cont G holes).2
        = holes.reverse.filter
            (fun h => assignIdx inter cont (G.map (fun g => g.headI)) h = none)) := by
  obtain ⟨h1, h2⟩ := uncontAux_char inter cont holes.reverse G hne
  exact ⟨uncontAux_fst_length inter cont holes.reverse G, h1, h2⟩

/-- Witness for C2 at a concrete input: one group, one hole, predicates
chosen so the hole passes the containment test and is appended. -/
theorem containment_pass_order_witness :
    (∀ g ∈ [[[((0:ℚ),(0:ℚ)),(1,0),(1,1),(0,0)]]], g ≠ [])
    ∧ (((getUncontainedHoles interF contT
          [[[((0:ℚ),(0:ℚ)),(1,0),(1,1),(0,0)]]]
          [[((2:ℚ),(2:ℚ)),(3,2),(3,3),(2,2)]]).1.length
        = ([[[((0:ℚ),(0:ℚ)),(1,0),(1,1),(0,0)]]] : List (List Ring')).length)
      ∧ (∀ j : Nat, (getUncontainedHoles interF contT
            [[[((0:ℚ),(0:ℚ)),(1,0),(1,1),(0,0)]]]
            [[((2:ℚ),(2:ℚ)),(3,2),(3,3),(2,2)]]).1.get? j
          = (([[[((0:ℚ),(0:ℚ)),(1,0),(1,1),(0,0)]]] : List (List Ring')).get? j).map
              (fun g => g ++ ([[((2:ℚ),(2:ℚ)),(3,2),(3,3),(2,2)]] : List Ring').reverse.filter
                (fun h => assignIdx interF contT
                  (([[[((0:ℚ),(0:ℚ)),(1,0),(1,1),(0,0)]]] : List (List Ring')).map
                    (fun g => g.headI)) h = some j)))
      ∧ ((getUncontainedHoles interF contT
            [[[((0:ℚ),(0:ℚ)),(1,0),(1,1),(0,0)]]]
            [[((2:ℚ),(2:ℚ)),(3,2),(3,3),(2,2)]]).2
          = ([[((2:ℚ),(2:ℚ)),(3,2),(3,3),(2,2)]] : List Ring').reverse.filter
              (fun h => assignIdx interF contT
                (([[[((0:ℚ),(0:ℚ)),(1,0),(1,1),(0,0)]]] : List (List Ring')).map
                  (fun g => g.headI)) h = none))) :=
  ⟨of_decide_eq_true (by with_unfolding_all rfl),
   containment_pass_order interF contT
     [[[((0:ℚ),(0:ℚ)),(1,0),(1,1),(0,0)]]]
     [[((2:ℚ),(2:ℚ)),(3,2),(3,3),(2,2)]]
     (of_decide_eq_true (by with_unfolding_all rfl))⟩

/-- Claim C3: a hole that reaches the fallback pass and, at its turn,
intersects no existing exterior ring is promoted rather than rejected:
the pass continues with the hole's reversal appended as a new singleton
group (visible to the scans for holes processed later in the same
pass), and the final group count — hence the output polygon count —
exceeds the pre-promotion count by at least the one new group; no
error is raised (the pass is a total function). -/
theorem orphan_promotion_step (inter : Ring' → Ring' → Bool)
    (G : List (List Ring')) (us : List Ring') (h : Ring')
    (horph : ∀ g ∈ G, inter g.headI h = false) :
    fbAux inter G (h :: us) = fbAux inter (G ++ [[h.reverse]]) us
    ∧ G.length + 1 ≤ (fbAux inter G (h :: us)).length := by
  have hscan := scanDown_inter_none inter G h horph
  have hstep : fbAux inter G (h :: us) = fbAux inter (G ++ [[h.reverse]]) us := by
    rw [fbAux, hscan]
  refine ⟨hstep, ?_⟩
  rw [hstep]
  have hmono := fbAux_length_mono inter us (G ++ [[h.reverse]])
  have hlen : (G ++ [[h.reverse]]).length = G.length + 1 := by simp
  omega

/-- Witness for C3 at a concrete input: one group whose exterior never
intersects (predicate constantly false), so the hole is promoted. -/
theorem orphan_promotion_step_witness :
    (∀ g ∈ [[[((0:ℚ),(0:ℚ)),(1,0),(1,1),(0,0)]]],
        interF g.headI [((5:ℚ),(5:ℚ)),(6,5),(6,6),(5,5)] = false)
    ∧ (fbAux interF [[[((0:ℚ),(0:ℚ)),(1,0),(1,1),(0,0)]]]
          [[((5:ℚ),(5:ℚ)),(6,5),(6,6),(5,5)]]
        = fbAux interF ([[[((0:ℚ),(0:ℚ)),(1,0),(1,1),(0,0)]]]
            ++ [[[((5:ℚ),(5:ℚ)),(6,5),(6,6),(5,5)].reverse]]) []
      ∧ ([[[((0:ℚ),(0:ℚ)),(1,0),(1,1),(0,0)]]] : List (List Ring')).length + 1
          ≤ (fbAux interF [[[((0:ℚ),(0:ℚ)),(1,0),(1,1),(0,0)]]]
              [[((5:ℚ),(5:ℚ)),(6,5),(6,6),(5,5)]]).length) :=
  ⟨of_decide_eq_true (by with_unfolding_all rfl),
   orphan_promotion_step interF [[[((0:ℚ),(0:ℚ)),(1,0),(1,1),(0,0)]]] []
     [((5:ℚ),(5:ℚ)),(6,5),(6,6),(5,5)]
     (of_decide_eq_true (by with_unfolding_all rfl))⟩

/-- Claim C4: when the two hole-assignment passes leave exactly one
outer-ring group, `_rings2geojson` returns a Polygon whose coordinates
are that group's ring list; for any other group count it returns a
MultiPolygon whose coordinates are the full group list. -/
theorem assembler_dispatch (inter : Ring' → Ring' → Bool) (cont : Ring' → Pt → Bool)
    (rings : List Ring') (G : List (List Ring'))
    (h : finalGroups inter cont rings = some G) :
    rings2geojson inter cont rings
      = some (if G.length = 1 then RingsGeo.polygon G.headI
              else RingsGeo.multiPolygon G) := by
  rw [finalGroups] at h
  cases hr : getOuterRings rings with
  | none => rw [hr, Option.none_bind] at h; cases h
  | some p =>
    obtain ⟨os, hs⟩ := p
    rw [hr, Option.some_bind] at h
    simp only [Option.some.injEq] at h
    subst h
    rw [rings2geojson_eq inter cont rings os hs hr]
    split <;> rfl

/-- Witness for C4 at a concrete input: two disjoint clockwise squares
give two groups, hence a MultiPolygon. -/
theorem assembler_dispatch_witness :
    (finalGroups interF contF
        [[((0:ℚ),(0:ℚ)),(0,1),(1,1),(1,0),(0,0)], [((5:ℚ),(5:ℚ)),(5,6),(6,6),(6,5),(5,5)]]
      = some [[[((0:ℚ),(0:ℚ)),(1,0),(1,1),(0,1),(0,0)]],
              [[((5:ℚ),(5:ℚ)),(6,5),(6,6),(5,6),(5,5)]]])
    ∧ rings2geojson interF contF
        [[((0:ℚ),(0:ℚ)),(0,1),(1,1),(1,0),(0,0)], [((5:ℚ),(5:ℚ)),(5,6),(6,6),(6,5),(5,5)]]
      = some (if ([[[((0:ℚ),(0:ℚ)),(1,0),(1,1),(0,1),(0,0)]],
                  [[((5:ℚ),(5:ℚ)),(6,5),(6,6),(5,6),(5,5)]]] : List (List Ring')).length = 1
              then RingsGeo.polygon ([[[((0:ℚ),(0:ℚ)),(1,0),(1,1),(0,1),(0,0)]],
                  [[((5:ℚ),(5:ℚ)),(6,5),(6,6),(5,6),(5,5)]]] : List (List Ring')).headI
              else RingsGeo.multiPolygon [[[((0:ℚ),(0:ℚ)),(1,0),(1,1),(0,1),(0,0)]],
                  [[((5:ℚ),(5:ℚ)),(6,5),(6,6),(5,6),(5,5)]]]) :=
  ⟨by with_unfolding_all rfl,
   assembler_dispatch interF contF
     [[((0:ℚ),(0:ℚ)),(0,1),(1,1),(1,0),(0,0)], [((5:ℚ),(5:ℚ)),(5,6),(6,6),(6,5),(5,5)]]
     [[[((0:ℚ),(0:ℚ)),(1,0),(1,1),(0,1),(0,0)]],
      [[((5:ℚ),(5:ℚ)),(6,5),(6,6),(5,6),(5,5)]]]
     (by with_unfolding_all rfl)⟩

/-- Claim C5 (amended): any raw ring with at least one coordinate whose
closed form has fewer than 4 coordinates is silently dropped — removing
it from the input changes neither the classifier output nor the final
geometry, so it is never classified and its coordinates never appear in
the output; an *empty* raw ring is excluded because the closing step
raises `IndexError` on it (see the counterexample). -/
theorem degenerate_ring_dropped (inter : Ring' → Ring' → Bool)
    (cont : Ring' → Pt → Bool) (pre post : List Ring') (r c : Ring')
    (hc : closeRing r = some c) (hlen : c.length < 4) :
    getOuterRings (pre ++ r :: post) = getOuterRings (pre ++ post)
    ∧ rings2geojson inter cont (pre ++ r :: post)
        = rings2geojson inter cont (pre ++ post) := by
  have h1 := getOuterRings_drop pre post r c hc hlen
  exact ⟨h1, by rw [rings2geojson, rings2geojson, h1]⟩

/-- Counterexample for C5 as frozen: the empty ring has fewer than 4
coordinates after closing on any reading, yet its presence makes the
whole conversion raise `IndexError` (`ring[0]` on an empty list) instead
of being silently dropped — without it the same input succeeds. -/
theorem degenerate_ring_cex :
    rings2geojson interF contF [([] : Ring')] = none
    ∧ rings2geojson interF contF ([] : List Ring')
        = some (RingsGeo.multiPolygon []) :=
  ⟨by with_unfolding_all rfl, by with_unfolding_all rfl⟩

/-- Witness for the amended C5: a 2-point ring closes to 3 points and is
dropped without affecting the surrounding conversion. -/
theorem degenerate_ring_dropped_witness :
    closeRing [((7:ℚ),(7:ℚ)),(8,8)] = some [((7:ℚ),(7:ℚ)),(8,8),(7,7)]
    ∧ ([((7:ℚ),(7:ℚ)),(8,8),(7,7)] : Ring').length < 4
    ∧ (getOuterRings ([[((0:ℚ),(0:ℚ)),(0,1),(1,1),(1,0),(0,0)]]
          ++ [((7:ℚ),(7:ℚ)),(8,8)] :: [])
        = getOuterRings ([[((0:ℚ),(0:ℚ)),(0,1),(1,1),(1,0),(0,0)]] ++ [])
      ∧ rings2geojson interF contF ([[((0:ℚ),(0:ℚ)),(0,1),(1,1),(1,0),(0,0)]]
          ++ [((7:ℚ),(7:ℚ)),(8,8)] :: [])
        = rings2geojson interF contF ([[((0:ℚ),(0:ℚ)),(0,1),(1,1),(1,0),(0,0)]] ++ [])) :=
  ⟨by with_unfolding_all rfl,
   of_decide_eq_true (by with_unfolding_all rfl),
   degenerate_ring_dropped interF contF
     [[((0:ℚ),(0:ℚ)),(0,1),(1,1),(1,0),(0,0)]] [] [((7:ℚ),(7:ℚ)),(8,8)]
     [((7:ℚ),(7:ℚ)),(8,8),(7,7)]
     (by with_unfolding_all rfl)
     (of_decide_eq_true (by with_unfolding_all rfl))⟩

/-- Counterexample for C7 as frozen: a conversion call that returns
normally still mutates the caller's object — the unclosed ring inside
the input has a copy of its first point appended in place, so the
nested rings array after the call differs from its value before. -/
theorem input_mutation_cex :
    (rings2geojson interF contF [[((0:ℚ),(0:ℚ)),(4,0),(4,4),(0,4)]]).isSome = true
    ∧ ringsAfter [[((0:ℚ),(0:ℚ)),(4,0),(4,4),(0,4)]]
        ≠ some [[((0:ℚ),(0:ℚ)),(4,0),(4,4),(0,4)]] :=
  ⟨by with_unfolding_all rfl,
   of_decide_eq_true (by with_unfolding_all rfl)⟩

/-- Claim C7 (amended): the only mutation a conversion performs on its
input is the in-place auto-closing of rings (appending a copy of the
first point to each ring whose endpoints fail the closeness test); in
particular, when every ring already passes that test, the input is
unchanged after the call. -/
theorem input_unchanged_when_closed (rings : List Ring')
    (h : ∀ r ∈ rings, closeRing r = some r) :
    ringsAfter rings = some rings :=
  ringsAfter_closed rings h

/-- Witness for the amended C7: an already-closed ring is untouched. -/
theorem input_unchanged_when_closed_witness :
    (∀ r ∈ [[((0:ℚ),(0:ℚ)),(1,0),(0,1),(0,0)]], closeRing r = some r)
    ∧ ringsAfter [[((0:ℚ),(0:ℚ)),(1,0),(0,1),(0,0)]]
        = some [[((0:ℚ),(0:ℚ)),(1,0),(0,1),(0,0)]] :=
  ⟨of_decide_eq_true (by with_unfolding_all rfl),
   input_unchanged_when_closed [[((0:ℚ),(0:ℚ)),(1,0),(0,1),(0,0)]]
     (of_decide_eq_true (by with_unfolding_all rfl))⟩

/-- Claim C8: both hole loops terminate because each iteration removes
exactly one element from the list it drains and never adds to it: the
containment pass emits at most as many uncontained holes as it was
given and leaves the group count unchanged, and the fallback pass grows
the group list by at most one per processed hole and never shrinks it
(orphan promotion appends only to the group list).  The loops are total
Lean functions by structural recursion on the drained list. -/
theorem hole_loops_bounded (inter : Ring' → Ring' → Bool) (cont : Ring' → Pt → Bool)
    (G : List (List Ring')) (ps : List Ring') :
    (uncontAux inter cont G ps).2.length ≤ ps.length
    ∧ (uncontAux inter cont G ps).1.length = G.length
    ∧ G.length ≤ (fbAux inter G ps).length
    ∧ (fbAux inter G ps).length ≤ G.length + ps.length :=
  ⟨uncontAux_snd_length inter cont ps G, uncontAux_fst_length inter cont ps G,
   fbAux_length_mono inter ps G, fbAux_length_le inter ps G⟩

/-- Claim C9: when the classifier yields no outer-ring group and no
hole, the assembled geometry is the empty MultiPolygon — the length-one
test fails (0 ≠ 1) and the otherwise-branch is taken; no error. -/
theorem empty_groups_multipolygon (inter : Ring' → Ring' → Bool)
    (cont : Ring' → Pt → Bool) (rings : List Ring')
    (h : getOuterRings rings = some ([], [])) :
    rings2geojson inter cont rings = some (RingsGeo.multiPolygon []) := by
  rw [rings2geojson_eq inter cont rings [] [] h]
  rfl

/-- Witness for C9: the empty rings array. -/
theorem empty_groups_multipolygon_witness :
    getOuterRings ([] : List Ring') = some ([], [])
    ∧ rings2geojson interF contF ([] : List Ring')
        = some (RingsGeo.multiPolygon []) :=
  ⟨rfl, empty_groups_multipolygon interF contF [] rfl⟩

lemma getKey_setKey_same : ∀ (d : Dict) (k : String) (v : Json),
    getKey (setKey d k v) k = some v := by
  intro d
  induction d with
  | nil => intro k v; simp [setKey, getKey]
  | cons p t ih =>
    intro k v
    obtain ⟨k2, v2⟩ := p
    rw [setKey]
    by_cases h : k2 = k
    · rw [if_pos h, getKey, if_pos rfl]
    · rw [if_neg h, getKey, if_neg h, ih]

lemma getKey_setKey_ne : ∀ (d : Dict) {k1 k : String}, k1 ≠ k → ∀ (v : Json),
    getKey (setKey d k1 v) k = getKey d k := by
  intro d
  induction d with
  | nil => intro k1 k hne v; simp [setKey, getKey, hne]
  | cons p t ih =>
    intro k1 k hne v
    obtain ⟨k2, v2⟩ := p
    by_cases h : k2 = k1
    · subst h
      rw [setKey, if_pos rfl, getKey, getKey, if_neg hne, if_neg hne]
    · rw [setKey, if_neg h, getKey, getKey, ih hne]

lemma featuresStep_no_id (conv : Json → Option Dict) (kvs : Dict) (g1 : Dict)
    (h : featuresStep conv kvs = some g1) : getKey g1 "id" = none := by
  have hne1 : "features" ≠ "id" := by decide
  have hne2 : "type" ≠ "id" := by decide
  rw [featuresStep] at h
  split at h
  · split at h
    · split at h
      · obtain ⟨cs, _, h2⟩ := Option.bind_eq_some.mp h
        injection h2 with h3
        subst h3
        rw [getKey_setKey_ne _ hne1, getKey_setKey_ne _ hne2]
        rfl
      · cases h
    · injection h with h3; subst h3; rfl
  · injection h with h3; subst h3; rfl

lemma pointStep_id (kvs g : Dict) :
    getKey (pointStep kvs g) "id" = getKey g "id" := by
  have hne1 : "coordinates" ≠ "id" := by decide
  have hne2 : "type" ≠ "id" := by decide
  rw [pointStep]
  split
  · split
    · rw [getKey_setKey_ne _ hne1, getKey_setKey_ne _ hne2]
    · rfl
  · rfl

lemma pointsStep_id (kvs g : Dict) :
    getKey (pointsStep kvs g) "id" = getKey g "id" := by
  have hne1 : "coordinates" ≠ "id" := by decide
  have hne2 : "type" ≠ "id" := by decide
  rw [pointsStep]
  split
  · rw [getKey_setKey_ne _ hne1, getKey_setKey_ne _ hne2]
  · rfl

lemma pathsStep_id (kvs g g' : Dict) (h : pathsStep kvs g = some g') :
    getKey g' "id" = getKey g "id" := by
  have hne1 : "coordinates" ≠ "id" := by decide
  have hne2 : "type" ≠ "id" := by decide
  rw [pathsStep] at h
  split at h
  · split at h
    · injection h with h3; subst h3
      rw [getKey_setKey_ne _ hne1, getKey_setKey_ne _ hne2]
    · injection h with h3; subst h3
      rw [getKey_setKey_ne _ hne1, getKey_setKey_ne _ hne2]
  · cases h
  · injection h with h3; subst h3; rfl

lemma encodeRingsGeo_id (geo : RingsGeo) :
    getKey (encodeRingsGeo geo) "id" = none := by
  cases geo <;> rfl

lemma ringsStep_id (inter : Ring' → Ring' → Bool) (cont : Ring' → Pt → Bool)
    (kvs g g' : Dict) (hid : getKey g "id" = none)
    (h : ringsStep inter cont kvs g = some g') : getKey g' "id" = none := by
  rw [ringsStep] at h
  split at h
  · obtain ⟨rs, _, h2⟩ := Option.bind_eq_some.mp h
    obtain ⟨geo, _, h3⟩ := Option.map_eq_some'.mp h2
    rw [← h3]
    exact encodeRingsGeo_id geo
  · injection h with h3; subst h3; exact hid

lemma envStep_id (kvs g : Dict) :
    getKey (envStep kvs g) "id" = getKey g "id" := by
  have hne1 : "coordinates" ≠ "id" := by decide
  have hne2 : "type" ≠ "id" := by decide
  rw [envStep]
  split
  · split
    · rw [getKey_setKey_ne _ hne1, getKey_setKey_ne _ hne2]
    · rfl
  · rfl

lemma geomStep_id (conv : Json → Option Dict) (kvs g gb : Dict)
    (h : geomStep conv kvs g = some gb) :
    getKey gb "id" = getKey g "id" := by
  have hne1 : "geometry" ≠ "id" := by decide
  have hne2 : "type" ≠ "id" := by decide
  rw [geomStep] at h
  split at h
  · obtain ⟨r, _, h2⟩ := Option.bind_eq_some.mp h
    injection h2 with h3; subst h3
    rw [getKey_setKey_ne _ hne1, getKey_setKey_ne _ hne2]
  · injection h with h3; subst h3
    rw [getKey_setKey_ne _ hne1, getKey_setKey_ne _ hne2]

lemma attrStep_id (idAttr : Option String) (kvs attrs : Dict) (g g' : Dict)
    (hattr : getKey kvs "attributes" = some (Json.obj attrs))
    (h : attrStep idAttr kvs g = some g') :
    getKey g' "id" = ((idLookup idAttr attrs).1).or (getKey g "id") := by
  have hne1 : "properties" ≠ "id" := by decide
  rw [attrStep] at h
  split at h
  · rename_i attrs2 heq
    rw [hattr] at heq
    injection heq with heq2
    injection heq2 with heq3
    subst heq3
    split at h
    · rename_i v hv
      injection h with h3; subst h3
      rw [getKey_setKey_same, hv]
      rfl
    · rename_i hv
      injection h with h3; subst h3
      rw [getKey_setKey_ne _ hne1, hv]
      rfl
  · cases h
  · rename_i heq
    rw [hattr] at heq
    cases heq

lemma normStep_id (g : Dict) : getKey (normStep g) "id" = getKey g "id" := by
  have hne1 : "geometry" ≠ "id" := by decide
  rw [normStep]
  split
  · split
    · rfl
    · rw [getKey_setKey_ne _ hne1]
  · rfl

lemma featuresStep_skip (conv : Json → Option Dict) (kvs : Dict)
    (h : (getKey kvs "features").all (fun v => !truthy v) = true) :
    featuresStep conv kvs = some [] := by
  rw [featuresStep]
  cases hf : getKey kvs "features" with
  | none => rfl
  | some fv =>
    rw [hf] at h
    have h2 : truthy fv = false := by simpa [Option.all] using h
    simp [h2]

lemma pointStep_skip (kvs g : Dict)
    (hxy : ((getKey kvs "x").any isNumJ && (getKey kvs "y").any isNumJ) = false) :
    pointStep kvs g = g := by
  rw [pointStep]
  cases hx : getKey kvs "x" with
  | none => rfl
  | some xv =>
    cases hy : getKey kvs "y" with
    | none => rfl
    | some yv =>
      rw [hx, hy] at hxy
      simp only [Option.any] at hxy
      simp [hxy]

lemma pointsStep_skip (kvs g : Dict) (h : getKey kvs "points" = none) :
    pointsStep kvs g = g := by
  rw [pointsStep, h]

lemma pathsStep_skip (kvs g : Dict) (h : getKey kvs "paths" = none) :
    pathsStep kvs g = some g := by
  rw [pathsStep, h]

lemma ringsStep_skip (inter : Ring' → Ring' → Bool) (cont : Ring' → Pt → Bool)
    (kvs g : Dict) (h : getKey kvs "rings" = none) :
    ringsStep inter cont kvs g = some g := by
  rw [ringsStep, h]

lemma envStep_skip (kvs g : Dict)
    (henv : (((getKey kvs "xmin").any isNumJ && (getKey kvs "ymin").any isNumJ)
        && ((getKey kvs "xmax").any isNumJ && (getKey kvs "ymax").any isNumJ)) = false) :
    envStep kvs g = g := by
  rw [envStep]
  cases h1 : getKey kvs "xmin" with
  | none => rfl
  | some a =>
    cases h2 : getKey kvs "ymin" with
    | none => rfl
    | some b =>
      cases h3 : getKey kvs "xmax" with
      | none => rfl
      | some c2 =>
        cases h4 : getKey kvs "ymax" with
        | none => rfl
        | some d =>
          rw [h1, h2, h3, h4] at henv
          simp only [Option.any] at henv
          rcases Bool.and_eq_false_iff.mp henv with h5 | h5 <;>
            rcases Bool.and_eq_false_iff.mp h5 with h6 | h6 <;>
              simp [h6]

lemma featurePart_skip (conv : Json → Option Dict) (idAttr : Option String)
    (kvs g : Dict) (hgeo : getKey kvs "geometry" = none)
    (hattr : getKey kvs "attributes" = none) :
    featurePart conv idAttr kvs g = some g := by
  rw [featurePart, hgeo, hattr]
  rfl

/-- Claim C10 (code places: `arcgis2geojson.convert`, lines 96-177):
when none of the recognized fields matches — no truthy `features`, no
numeric `x`-and-`y` pair, no `points`, `paths` or `rings` key, not all
four numeric envelope bounds, and neither `geometry` nor `attributes`
— the converter returns the empty object, with no error and no `type`
key (the fuel offset only demands the call is allowed to start). -/
theorem unmatched_input_empty (inter : Ring' → Ring' → Bool)
    (cont : Ring' → Pt → Bool) (idAttr : Option String) (fuel : Nat) (kvs : Dict)
    (hfeat : (getKey kvs "features").all (fun v => !truthy v) = true)
    (hxy : ((getKey kvs "x").any isNumJ && (getKey kvs "y").any isNumJ) = false)
    (hpoints : getKey kvs "points" = none)
    (hpaths : getKey kvs "paths" = none)
    (hrings : getKey kvs "rings" = none)
    (henv : (((getKey kvs "xmin").any isNumJ && (getKey kvs "ymin").any isNumJ)
        && ((getKey kvs "xmax").any isNumJ && (getKey kvs "ymax").any isNumJ)) = false)
    (hgeo : getKey kvs "geometry" = none)
    (hattr : getKey kvs "attributes" = none) :
    convertF inter cont idAttr (fuel + 1) (Json.obj kvs) = some [] := by
  rw [convertF, featuresStep_skip _ _ hfeat, Option.some_bind,
    pointStep_skip kvs _ hxy, pointsStep_skip kvs _ hpoints,
    pathsStep_skip kvs _ hpaths, Option.some_bind,
    ringsStep_skip inter cont kvs _ hrings, Option.some_bind,
    envStep_skip kvs _ henv,
    featurePart_skip _ idAttr kvs _ hgeo hattr, Option.some_bind]
  rfl

/-- Witness for C10: an object with a single unrecognized key. -/
theorem unmatched_input_empty_witness :
    ((getKey [("foo", Json.num 1)] "features").all (fun v => !truthy v) = true)
    ∧ (((getKey [("foo", Json.num 1)] "x").any isNumJ
        && (getKey [("foo", Json.num 1)] "y").any isNumJ) = false)
    ∧ (getKey [("foo", Json.num 1)] "points" = none)
    ∧ (getKey [("foo", Json.num 1)] "paths" = none)
    ∧ (getKey [("foo", Json.num 1)] "rings" = none)
    ∧ ((((getKey [("foo", Json.num 1)] "xmin").any isNumJ
          && (getKey [("foo", Json.num 1)] "ymin").any isNumJ)
        && ((getKey [("foo", Json.num 1)] "xmax").any isNumJ
          && (getKey [("foo", Json.num 1)] "ymax").any isNumJ)) = false)
    ∧ (getKey [("foo", Json.num 1)] "geometry" = none)
    ∧ (getKey [("foo", Json.num 1)] "attributes" = none)
    ∧ convertF interF contF none 1 (Json.obj [("foo", Json.num 1)]) = some [] :=
  ⟨rfl, rfl, rfl, rfl, rfl, rfl, rfl, rfl,
   unmatched_input_empty interF contF none 0 [("foo", Json.num 1)]
     rfl rfl rfl rfl rfl rfl rfl rfl⟩

/-- Claim C6 (amended): for a Feature input whose `attributes` is a
mapping, the emitted `id` is exactly the result of the source's key
scan — the value of the first key among [caller-supplied id-attribute
name (when given and non-empty), "OBJECTID", "FID"] that is present
with a number-or-string value (Python booleans count as numbers) — and
when no candidate qualifies the output carries no `id` field, *no*
diagnostic is emitted (the `except KeyError` handler holding the
warning is unreachable for a mapping), and no error is raised. -/
theorem feature_id_lookup (inter : Ring' → Ring' → Bool) (cont : Ring' → Pt → Bool)
    (idAttr : Option String) (fuel : Nat) (kvs attrs : Dict) (out : Dict)
    (hattr : getKey kvs "attributes" = some (Json.obj attrs))
    (hconv : convertF inter cont idAttr fuel (Json.obj kvs) = some out) :
    getKey out "id" = (idLookup idAttr attrs).1
    ∧ (idLookup idAttr attrs).2 = false := by
  refine ⟨?_, rfl⟩
  cases fuel with
  | zero => rw [convertF] at hconv; cases hconv
  | succ fuel =>
    rw [convertF] at hconv
    obtain ⟨g1, hg1, hconv⟩ := Option.bind_eq_some.mp hconv
    obtain ⟨g4, hg4, hconv⟩ := Option.bind_eq_some.mp hconv
    obtain ⟨g5, hg5, hconv⟩ := Option.bind_eq_some.mp hconv
    obtain ⟨g7, hg7, hconv⟩ := Option.bind_eq_some.mp hconv
    injection hconv with hout
    subst hout
    have hid1 : getKey g1 "id" = none := featuresStep_no_id _ kvs g1 hg1
    have hid4 : getKey g4 "id" = none := by
      rw [pathsStep_id kvs _ g4 hg4, pointsStep_id, pointStep_id]
      exact hid1
    have hid5 : getKey g5 "id" = none := ringsStep_id inter cont kvs _ g5 hid4 hg5
    rw [featurePart] at hg7
    have hcond : ((getKey kvs "geometry").isSome
        || (getKey kvs "attributes").isSome) = true := by
      rw [hattr]; simp
    rw [if_pos hcond] at hg7
    obtain ⟨gb, hgb, hg7b⟩ := Option.bind_eq_some.mp hg7
    have hidb : getKey gb "id" = none := by
      rw [geomStep_id _ kvs _ gb hgb, envStep_id]
      exact hid5
    rw [normStep_id, attrStep_id idAttr kvs attrs gb g7 hattr hg7b, hidb]
    cases (idLookup idAttr attrs).1 <;> rfl

/-- Witness for the amended C6: a Feature whose attributes carry a
numeric OBJECTID; the emitted id is that value and no warning runs. -/
theorem feature_id_lookup_witness :
    (getKey [("attributes", Json.obj [("OBJECTID", Json.num 7)])] "attributes"
      = some (Json.obj [("OBJECTID", Json.num 7)]))
    ∧ (convertF interF contF none 1
        (Json.obj [("attributes", Json.obj [("OBJECTID", Json.num 7)])])
      = some [("type", Json.str "Feature"), ("geometry", Json.null),
              ("properties", Json.obj [("OBJECTID", Json.num 7)]), ("id", Json.num 7)])
    ∧ (getKey [("type", Json.str "Feature"), ("geometry", Json.null),
          ("properties", Json.obj [("OBJECTID", Json.num 7)]), ("id", Json.num 7)] "id"
        = (idLookup none [("OBJECTID", Json.num 7)]).1
      ∧ (idLookup none [("OBJECTID", Json.num 7)]).2 = false) :=
  ⟨rfl, rfl,
   feature_id_lookup interF contF none 1
     [("attributes", Json.obj [("OBJECTID", Json.num 7)])]
     [("OBJECTID", Json.num 7)]
     [("type", Json.str "Feature"), ("geometry", Json.null),
      ("properties", Json.obj [("OBJECTID", Json.num 7)]), ("id", Json.num 7)]
     rfl rfl⟩

/-- Counterexample for C6 as frozen, at two concrete inputs.  First: the
caller supplies the id-attribute name `""`, the attributes map `""` to
the number 7, so per the claim the emitted id should be 7 — but Python's
`if id_attr` truthiness drops the empty-string key and the code emits no
id at all.  Second: no candidate key qualifies, so per the claim a
diagnostic should be emitted — but the warning sits in an unreachable
`except KeyError` handler and the emitted-warning flag stays `false`. -/
theorem id_lookup_cex :
    idLookup (some "") [("", Json.num 7)] = (none, false)
    ∧ idLookup none [("name", Json.str "a")] = (none, false) :=
  ⟨rfl, rfl⟩
